import Mathlib

/-!
Verification of the `blockservice` package (src/blockservice/blockservice.go)
of jakobvarmose/go-ipfs, against its natural-language specification.

The blockservice code is embedded shallowly:

* `Cid` and `Block` model the (external) go-cid / go-block-format values that
  the package manipulates: a content identifier carrying a hash-function code,
  a digest length and the addressed content, possibly extended with embedded
  secret (decryption) material that `Cid.toPublic` strips; a block is a pair of
  identifier and payload.
* The local blockstore and the exchange are external collaborators; they are
  passed to each operation as behaviour functions (`bsGet`, `has`, `putMany`,
  fetchers, ...), and every interaction with them is recorded in an explicit
  effect trace (`Eff`), so that frame properties ("the store is never queried",
  "the exchange is never consulted") are statements about the trace.
* The background goroutine of `getBlocks` is modelled as a terminating
  function that returns the list of blocks pushed to the output channel
  together with the effect trace.  Context cancellation is modelled by a
  `cancelAt : Option Nat` budget: the `select` guarding the n-th push takes the
  `ctx.Done()` branch iff `cancelAt = some j` with `j ≤ n`.
-/

/-- A content identifier.  `hashFunc`, `digestLen` describe the multihash
prefix, `body` abstracts the encoded digest bytes, and `secret` is the embedded
secondary (decryption-key) material that is not part of the public form.
Two identifiers are equal iff all encoded components are equal. -/
structure Cid where
  hashFunc : Nat
  digestLen : Nat
  body : Nat
  secret : Option Nat
deriving DecidableEq, Repr

/-- `cid.ToPublic`: strip the embedded secret material.  Idempotent. -/
def Cid.toPublic (c : Cid) : Cid :=
  { c with secret := none }

/-- The error values that flow through the package. -/
inductive Err where
  /-- `blockstore.ErrNotFound`, the local store's not-found sentinel. -/
  | storeNotFound : Err
  /-- `blockservice.ErrNotFound` (`"blockservice: key not found"`). -/
  | svcNotFound : Err
  /-- `verifcid`: the hash function is on the insecure deny-list. -/
  | insecureHash : Err
  /-- `verifcid`: the digest is below the minimum admissible length. -/
  | belowMinLength : Err
  /-- a failure of the decrypted-block constructor. -/
  | decryption : Err
  /-- a malformed block rejected by `ToPublic`. -/
  | malformedBlock : Err
  /-- `errors.New("blockservice is closed")` from `AddBlock`. -/
  | closed : Err
  /-- `fmt.Errorf("blockservice is closed (%s)", err)` from `AddBlocks`. -/
  | closedMsg : Err → Err
  /-- any other collaborator-produced error. -/
  | other : Nat → Err
deriving DecidableEq, Repr

/-- A block: an immutable pair of content identifier and payload bytes
(abstracted as a `Nat`).  `malformed` models the internal-inconsistency case
in which the external `ToPublic` projection fails. -/
structure Block where
  cid : Cid
  data : Nat
  malformed : Bool := false
deriving DecidableEq, Repr

/-- Modelled from the spec: the deny-list of `thirdparty/verifcid` (not under
src/) — hash functions considered cryptographically unsound. -/
def insecureHashes : List Nat := [1]

/-- Modelled from the spec: the minimum acceptable digest length enforced by
`thirdparty/verifcid` (not under src/). -/
def minimumHashLength : Nat := 20

/-- Modelled from the spec: `verifcid.ValidateCid` (thirdparty/verifcid, not
under src/).  The Identity & Integrity Gate rejects identifiers whose hash
function is on a deny-list of insecure hash functions, and identifiers whose
digest is shorter than a minimum acceptable length. -/
def validateCid (c : Cid) : Except Err Unit :=
  if c.hashFunc ∈ insecureHashes then .error Err.insecureHash
  else if c.digestLen < minimumHashLength then .error Err.belowMinLength
  else .ok ()

/-- Modelled from the spec: `Block.ToPublic` of the go-block-format fork (not
under src/) — strips the confidentiality material from the identifier, leaves
the payload as already-sealed bytes, and errors iff the block's internal
consistency is malformed. -/
def Block.toPublic (b : Block) : Except Err Block :=
  if b.malformed then .error Err.malformedBlock
  else .ok { b with cid := b.cid.toPublic }

/-- Modelled from the spec: `blocks.NewAutoDecryptedBlock(raw, originalId)` of
the go-block-format fork (not under src/) — reconstitutes the caller-facing
block from fetched bytes and the caller's original identifier.  With no key
material it is an identity transform; with key material the payload is
decrypted (failure is an error); with no identifier (the `nil` map lookup in
`getBlocks`) it fails.  The payload "decryption" is abstract: key `k`
decrypts raw payload `raw` iff `k ≤ raw`, yielding `raw - k`. -/
def autoDecrypt (raw : Nat) (oc : Option Cid) : Except Err Block :=
  match oc with
  | none => .error Err.decryption
  | some c =>
    match c.secret with
    | none => .ok { cid := c, data := raw }
    | some k => if k ≤ raw then .ok { cid := c, data := raw - k } else .error Err.decryption

/-- One observable interaction with a collaborator (local store or exchange). -/
inductive Eff where
  | storeGet : Cid → Eff
  | storeHas : Cid → Eff
  | storePut : Block → Eff
  | storePutMany : List Block → Eff
  | exchGetOne : Cid → Eff
  | exchGetMany : List Cid → Eff
  | exchHasBlock : Block → Eff
deriving DecidableEq, Repr

/-- Whether a store `Get` produced a block (`err == nil` in Go). -/
def gotBlock (r : Except Err Nat) : Bool :=
  match r with
  | .ok _ => true
  | .error _ => false

/-- Whether the `select` guarding push number `n` succeeds, i.e. the context
is not yet cancelled at that suspension point. -/
def pushOk (cancelAt : Option Nat) (n : Nat) : Bool :=
  match cancelAt with
  | none => true
  | some j => n < j

/-- `getBlock` (src/blockservice/blockservice.go:227-262): the single-key
local-then-remote resolver shared by the service and sessions.  `bsGet` is the
local store's `Get` (returning raw bytes), `f` the optional exchange fetcher,
`nadb` the external decrypted-block constructor.  Returns the result together
with the collaborator-effect trace. -/
def getBlockRun (c : Cid) (bsGet : Cid → Except Err Nat)
    (f : Option (Cid → Except Err Nat))
    (nadb : Nat → Option Cid → Except Err Block) : Except Err Block × List Eff :=
  let c2 := c.toPublic
  match validateCid c2 with
  | .error e => (.error e, [])
  | .ok _ =>
    match bsGet c2 with
    | .ok raw => (nadb raw (some c), [Eff.storeGet c2])
    | .error err =>
      match f with
      | some g =>
        if err = Err.storeNotFound then
          match g c2 with
          | .error e =>
            if e = Err.storeNotFound then
              (.error Err.svcNotFound, [Eff.storeGet c2, Eff.exchGetOne c2])
            else (.error e, [Eff.storeGet c2, Eff.exchGetOne c2])
          | .ok raw => (nadb raw (some c), [Eff.storeGet c2, Eff.exchGetOne c2])
        else (.error err, [Eff.storeGet c2])
      | none =>
        if err = Err.storeNotFound then (.error Err.svcNotFound, [Eff.storeGet c2])
        else (.error err, [Eff.storeGet c2])

/-- The reverse mapping built at the top of `getBlocks`
(src/blockservice/blockservice.go:272-277): from a public-form key back to the
caller's original identifier.  The Go map is written in list order, so for
duplicate public forms the last original key wins; a missing key yields the
zero value (`nil`), modelled by `none`. -/
def mkMapping (ks : List Cid) : Cid → Option Cid :=
  fun pc => ks.reverse.find? (fun c => decide (c.toPublic = pc))

/-- The state of the `getBlocks` goroutine. -/
structure ScanSt where
  emitted : List Block
  effs : List Eff
  misses : List Cid
  pushes : Nat
  stopped : Bool
deriving DecidableEq, Repr

/-- The sequential local scan of the `getBlocks` goroutine
(src/blockservice/blockservice.go:289-307): each key is looked up in the local
store; any `Get` error adds the key to the miss list; a hit is passed through
the decrypted-block constructor (failures silently dropped) and pushed,
returning early if the context is cancelled at the push. -/
def localScan (bsGet : Cid → Except Err Nat) (mp : Cid → Option Cid)
    (nadb : Nat → Option Cid → Except Err Block) (cancelAt : Option Nat) :
    List Cid → ScanSt → ScanSt
  | [], st => st
  | c :: rest, st =>
    let st1 := { st with effs := st.effs ++ [Eff.storeGet c] }
    match bsGet c with
    | .error _ => localScan bsGet mp nadb cancelAt rest { st1 with misses := st1.misses ++ [c] }
    | .ok raw =>
      match nadb raw (mp c) with
      | .error _ => localScan bsGet mp nadb cancelAt rest st1
      | .ok hit =>
        if pushOk cancelAt st1.pushes then
          localScan bsGet mp nadb cancelAt rest
            { st1 with emitted := st1.emitted ++ [hit], pushes := st1.pushes + 1 }
        else { st1 with stopped := true }

/-- The remote receive loop of the `getBlocks` goroutine
(src/blockservice/blockservice.go:319-332): each block streamed by the
exchange is reverse-mapped to its original identifier, passed through the
decrypted-block constructor (failures silently dropped) and pushed, returning
early if the context is cancelled at the push.  No deduplication is
performed. -/
def remoteLoop (mp : Cid → Option Cid)
    (nadb : Nat → Option Cid → Except Err Block) (cancelAt : Option Nat) :
    List Block → ScanSt → ScanSt
  | [], st => st
  | b :: rest, st =>
    match nadb b.data (mp b.cid) with
    | .error _ => remoteLoop mp nadb cancelAt rest st
    | .ok b2 =>
      if pushOk cancelAt st.pushes then
        remoteLoop mp nadb cancelAt rest
          { st with emitted := st.emitted ++ [b2], pushes := st.pushes + 1 }
      else { st with stopped := true }

/-- Outcome of one `getBlocks` call: the blocks pushed to the output channel
(which is always closed on goroutine exit), the collaborator-effect trace,
and whether the goroutine dereferenced a `nil` exchange fetcher. -/
structure GBRun where
  emitted : List Block
  effs : List Eff
  nilDeref : Bool
deriving DecidableEq, Repr

/-- `getBlocks` (src/blockservice/blockservice.go:271-335): the batched
local-then-remote resolver.  Keys are normalised to public form and a reverse
mapping is retained; the validation loop only logs invalid identifiers — the
key list is not filtered.  The goroutine scans the store sequentially,
accumulating misses, then — with no nil guard, unlike `getBlock` — submits the
miss list to the exchange fetcher's batched `GetBlocks` and forwards its
stream.  `getBlocksFinish` is the tail of the goroutine after the local scan
(src/blockservice/blockservice.go:309-332): return early when cancelled
during the scan or when there are no misses; otherwise call the fetcher's
batched `GetBlocks` on the full miss list — dereferencing it with no nil
guard — and run the receive loop over its stream. -/
def getBlocksFinish (mp : Cid → Option Cid)
    (nadb : Nat → Option Cid → Except Err Block) (cancelAt : Option Nat)
    (f : Option (List Cid → Except Err (List Block))) (st : ScanSt) : GBRun :=
  if st.stopped then ⟨st.emitted, st.effs, false⟩
  else if st.misses.isEmpty then ⟨st.emitted, st.effs, false⟩
  else
    match f with
    | none => ⟨st.emitted, st.effs, true⟩
    | some g =>
      match g st.misses with
      | .error _ => ⟨st.emitted, st.effs ++ [Eff.exchGetMany st.misses], false⟩
      | .ok rblocks =>
        let st2 := remoteLoop mp nadb cancelAt rblocks
          { st with effs := st.effs ++ [Eff.exchGetMany st.misses] }
        ⟨st2.emitted, st2.effs, false⟩

/-- One whole `getBlocks` call: normalise the keys, build the reverse
mapping, run the sequential local scan from the empty state, then finish with
the remote stage. -/
def getBlocksRun (ks : List Cid) (bsGet : Cid → Except Err Nat)
    (f : Option (List Cid → Except Err (List Block)))
    (nadb : Nat → Option Cid → Except Err Block)
    (cancelAt : Option Nat) : GBRun :=
  getBlocksFinish (mkMapping ks) nadb cancelAt f
    (localScan bsGet (mkMapping ks) nadb cancelAt (ks.map Cid.toPublic)
      ⟨[], [], [], 0, false⟩)

deriving instance DecidableEq for Except

/-- Outcome of a write-path call: either a returned Go error value (or
success), or a panic from dereferencing a `nil` exchange interface. -/
inductive WOut where
  | ret : Except Err Unit → WOut
  | panicked : WOut
deriving DecidableEq, Repr

/-- A write-path run: the outcome plus the collaborator-effect trace. -/
structure WRun where
  out : WOut
  effs : List Eff
deriving DecidableEq, Repr

/-- `blockService.AddBlock` (src/blockservice/blockservice.go:132-161):
project the block, validate its public identifier, optionally check the store
for prior existence (`checkFirst`), persist, then announce via the exchange's
`HasBlock`; an announcement failure is mapped to the fixed
"blockservice is closed" error.  `has`, `put` are the store's behaviours and
`exch` the (possibly nil) exchange's `HasBlock`. -/
def addBlock (checkFirst : Bool) (o : Block)
    (has : Cid → Except Err Bool) (put : Block → Option Err)
    (exch : Option (Block → Option Err)) : WRun :=
  match o.toPublic with
  | .error e => ⟨.ret (.error e), []⟩
  | .ok o2 =>
    match validateCid o2.cid with
    | .error e => ⟨.ret (.error e), []⟩
    | .ok _ =>
      let persist : List Eff → WRun := fun pre =>
        match put o2 with
        | some e => ⟨.ret (.error e), pre ++ [Eff.storePut o2]⟩
        | none =>
          match exch with
          | none => ⟨.panicked, pre ++ [Eff.storePut o2]⟩
          | some ex =>
            match ex o2 with
            | some _ => ⟨.ret (.error Err.closed), pre ++ [Eff.storePut o2, Eff.exchHasBlock o2]⟩
            | none => ⟨.ret (.ok ()), pre ++ [Eff.storePut o2, Eff.exchHasBlock o2]⟩
      if checkFirst then
        match has o2.cid with
        | .error e => ⟨.ret (.error e), [Eff.storeHas o2.cid]⟩
        | .ok true => ⟨.ret (.ok ()), [Eff.storeHas o2.cid]⟩
        | .ok false => persist [Eff.storeHas o2.cid]
      else persist []

/-- The first loop of `AddBlocks` (src/blockservice/blockservice.go:164-175):
project every block to public form, the first failure aborting the call.  (The
type assertion in the source always succeeds, since the fork's block interface
provides `ToPublic`.) -/
def traverseToPublic : List Block → Except Err (List Block)
  | [] => .ok []
  | b :: rest =>
    match b.toPublic with
    | .error e => .error e
    | .ok b2 =>
      match traverseToPublic rest with
      | .error e => .error e
      | .ok rest2 => .ok (b2 :: rest2)

/-- The hash-security loop of `AddBlocks`
(src/blockservice/blockservice.go:177-182): validate every projected
identifier, the first failure aborting the call. -/
def validateAll : List Block → Except Err Unit
  | [] => .ok ()
  | b :: rest =>
    match validateCid b.cid with
    | .error e => .error e
    | .ok _ => validateAll rest

/-- The check-first filtering loop of `AddBlocks`
(src/blockservice/blockservice.go:184-194): query `Has` per block (a store
error aborts), keeping the blocks not yet present. -/
def checkLoop (has : Cid → Except Err Bool) : List Block → List Eff × Except Err (List Block)
  | [] => ([], .ok [])
  | b :: rest =>
    match has b.cid with
    | .error e => ([Eff.storeHas b.cid], .error e)
    | .ok true =>
      let r := checkLoop has rest
      (Eff.storeHas b.cid :: r.1, r.2)
    | .ok false =>
      let r := checkLoop has rest
      (Eff.storeHas b.cid :: r.1, r.2.map (fun l => b :: l))

/-- The announcement loop of `AddBlocks`
(src/blockservice/blockservice.go:204-210): announce each persisted block via
the exchange's `HasBlock`; the first failure returns immediately, skipping the
remaining announcements. -/
def announceLoop (ex : Block → Option Err) : List Block → List Eff × Option Err
  | [] => ([], none)
  | b :: rest =>
    match ex b with
    | some e => ([Eff.exchHasBlock b], some e)
    | none =>
      let r := announceLoop ex rest
      (Eff.exchHasBlock b :: r.1, r.2)

/-- `blockService.AddBlocks` (src/blockservice/blockservice.go:163-212):
project all blocks, validate all identifiers (both before any store
interaction), optionally filter by existence, persist the accepted subset with
one bulk `PutMany`, then announce per block; an announcement failure is mapped
to the "blockservice is closed (...)" error. -/
def addBlocks (checkFirst : Bool) (bs : List Block)
    (has : Cid → Except Err Bool) (putMany : List Block → Option Err)
    (exch : Option (Block → Option Err)) : WRun :=
  match traverseToPublic bs with
  | .error e => ⟨.ret (.error e), []⟩
  | .ok bs2 =>
    match validateAll bs2 with
    | .error e => ⟨.ret (.error e), []⟩
    | .ok _ =>
      let checked : List Eff × Except Err (List Block) :=
        if checkFirst then checkLoop has bs2 else ([], .ok bs2)
      match checked.2 with
      | .error e => ⟨.ret (.error e), checked.1⟩
      | .ok toput =>
        match putMany toput with
        | some e => ⟨.ret (.error e), checked.1 ++ [Eff.storePutMany toput]⟩
        | none =>
          match exch with
          | none =>
            if toput.isEmpty then ⟨.ret (.ok ()), checked.1 ++ [Eff.storePutMany toput]⟩
            else ⟨.panicked, checked.1 ++ [Eff.storePutMany toput]⟩
          | some ex =>
            let ann := announceLoop ex toput
            match ann.2 with
            | some e =>
              ⟨.ret (.error (Err.closedMsg e)), checked.1 ++ [Eff.storePutMany toput] ++ ann.1⟩
            | none => ⟨.ret (.ok ()), checked.1 ++ [Eff.storePutMany toput] ++ ann.1⟩

/-- The service configuration owned by the facade
(src/blockservice/blockservice.go:65-71): whether writes check the store
first. -/
structure BlockServiceCfg where
  checkFirst : Bool
deriving DecidableEq, Repr

/-- `New` (src/blockservice/blockservice.go:74-84): check-first mode. -/
def New : BlockServiceCfg := ⟨true⟩

/-- `NewWriteThrough` (src/blockservice/blockservice.go:88-98): existence
checks are skipped. -/
def NewWriteThrough : BlockServiceCfg := ⟨false⟩

/-! ### Helper lemmas about the `getBlocks` goroutine -/

lemma localScan_none_stopped (bsGet : Cid → Except Err Nat) (mp : Cid → Option Cid)
    (nadb : Nat → Option Cid → Except Err Block) (l : List Cid) (st : ScanSt) :
    (localScan bsGet mp nadb none l st).stopped = st.stopped := by
  induction l generalizing st with
  | nil => simp [localScan]
  | cons c rest ih =>
    cases hbc : bsGet c with
    | error e => simp [localScan, hbc, ih]
    | ok raw =>
      cases hnb : nadb raw (mp c) with
      | error e => simp [localScan, hbc, hnb, ih]
      | ok hit => simp [localScan, hbc, hnb, pushOk, ih]

lemma localScan_none_misses (bsGet : Cid → Except Err Nat) (mp : Cid → Option Cid)
    (nadb : Nat → Option Cid → Except Err Block) (l : List Cid) (st : ScanSt) :
    (localScan bsGet mp nadb none l st).misses
      = st.misses ++ l.filter (fun c => !gotBlock (bsGet c)) := by
  induction l generalizing st with
  | nil => simp [localScan]
  | cons c rest ih =>
    cases hbc : bsGet c with
    | error e =>
      simp [localScan, hbc, ih, List.filter_cons, gotBlock]
    | ok raw =>
      cases hnb : nadb raw (mp c) with
      | error e => simp [localScan, hbc, hnb, ih, List.filter_cons, gotBlock]
      | ok hit => simp [localScan, hbc, hnb, pushOk, ih, List.filter_cons, gotBlock]

lemma localScan_none_effs (bsGet : Cid → Except Err Nat) (mp : Cid → Option Cid)
    (nadb : Nat → Option Cid → Except Err Block) (l : List Cid) (st : ScanSt) :
    (localScan bsGet mp nadb none l st).effs = st.effs ++ l.map Eff.storeGet := by
  induction l generalizing st with
  | nil => simp [localScan]
  | cons c rest ih =>
    cases hbc : bsGet c with
    | error e => simp [localScan, hbc, ih]
    | ok raw =>
      cases hnb : nadb raw (mp c) with
      | error e => simp [localScan, hbc, hnb, ih]
      | ok hit => simp [localScan, hbc, hnb, pushOk, ih]

lemma localScan_ok_misses (bsGet : Cid → Except Err Nat) (mp : Cid → Option Cid)
    (nadb : Nat → Option Cid → Except Err Block) (cancelAt : Option Nat)
    (l : List Cid) (st : ScanSt) (hok : ∀ c ∈ l, gotBlock (bsGet c) = true) :
    (localScan bsGet mp nadb cancelAt l st).misses = st.misses := by
  induction l generalizing st with
  | nil => simp [localScan]
  | cons c rest ih =>
    have hc : gotBlock (bsGet c) = true := hok c (List.mem_cons_self c rest)
    have hrest : ∀ x ∈ rest, gotBlock (bsGet x) = true :=
      fun x hx => hok x (List.mem_cons_of_mem c hx)
    cases hbc : bsGet c with
    | error e => rw [hbc] at hc; simp [gotBlock] at hc
    | ok raw =>
      cases hnb : nadb raw (mp c) with
      | error e => simpa [localScan, hbc, hnb] using ih _ hrest
      | ok hit =>
        by_cases hp : pushOk cancelAt st.pushes = true
        · simpa [localScan, hbc, hnb, hp] using ih _ hrest
        · simp [localScan, hbc, hnb, hp]

lemma localScan_effs_storeGet (bsGet : Cid → Except Err Nat) (mp : Cid → Option Cid)
    (nadb : Nat → Option Cid → Except Err Block) (cancelAt : Option Nat)
    (l : List Cid) (st : ScanSt) :
    ∀ e ∈ (localScan bsGet mp nadb cancelAt l st).effs,
      e ∈ st.effs ∨ ∃ c, e = Eff.storeGet c := by
  induction l generalizing st with
  | nil => intro e he; exact Or.inl (by simpa [localScan] using he)
  | cons c rest ih =>
    intro e he
    have split1 : e ∈ st.effs ++ [Eff.storeGet c] →
        e ∈ st.effs ∨ ∃ c0, e = Eff.storeGet c0 := by
      intro h2
      rcases List.mem_append.mp h2 with h | h
      · exact Or.inl h
      · exact Or.inr ⟨c, by simpa using h⟩
    cases hbc : bsGet c with
    | error e2 =>
      have h2 : e ∈ (localScan bsGet mp nadb cancelAt rest
          { st with effs := st.effs ++ [Eff.storeGet c], misses := st.misses ++ [c] }).effs := by
        simpa [localScan, hbc] using he
      rcases ih _ e h2 with h | h
      · exact split1 h
      · exact Or.inr h
    | ok raw =>
      cases hnb : nadb raw (mp c) with
      | error e2 =>
        have h2 : e ∈ (localScan bsGet mp nadb cancelAt rest
            { st with effs := st.effs ++ [Eff.storeGet c] }).effs := by
          simpa [localScan, hbc, hnb] using he
        rcases ih _ e h2 with h | h
        · exact split1 h
        · exact Or.inr h
      | ok hit =>
        by_cases hp : pushOk cancelAt st.pushes = true
        · have h2 : e ∈ (localScan bsGet mp nadb cancelAt rest
              { st with emitted := st.emitted ++ [hit],
                        effs := st.effs ++ [Eff.storeGet c],
                        pushes := st.pushes + 1 }).effs := by
            simpa [localScan, hbc, hnb, hp] using he
          rcases ih _ e h2 with h | h
          · exact split1 h
          · exact Or.inr h
        · exact split1 (by simpa [localScan, hbc, hnb, hp] using he)

lemma localScan_emitted_inv (bsGet : Cid → Except Err Nat) (mp : Cid → Option Cid)
    (nadb : Nat → Option Cid → Except Err Block) (cancelAt : Option Nat)
    (Q : Cid → Prop) (l : List Cid) (st : ScanSt)
    (hn : ∀ raw pc b, nadb raw (mp pc) = .ok b → Q b.cid)
    (hemit : ∀ b ∈ st.emitted, Q b.cid) :
    ∀ b ∈ (localScan bsGet mp nadb cancelAt l st).emitted, Q b.cid := by
  induction l generalizing st with
  | nil => simpa [localScan] using hemit
  | cons c rest ih =>
    cases hbc : bsGet c with
    | error e =>
      intro b hb
      have hb2 : b ∈ (localScan bsGet mp nadb cancelAt rest
          { st with effs := st.effs ++ [Eff.storeGet c], misses := st.misses ++ [c] }).emitted := by
        simpa [localScan, hbc] using hb
      exact ih { st with effs := st.effs ++ [Eff.storeGet c],
                         misses := st.misses ++ [c] } hemit b hb2
    | ok raw =>
      cases hnb : nadb raw (mp c) with
      | error e =>
        intro b hb
        have hb2 : b ∈ (localScan bsGet mp nadb cancelAt rest
            { st with effs := st.effs ++ [Eff.storeGet c] }).emitted := by
          simpa [localScan, hbc, hnb] using hb
        exact ih { st with effs := st.effs ++ [Eff.storeGet c] } hemit b hb2
      | ok hit =>
        by_cases hp : pushOk cancelAt st.pushes = true
        · intro b hb
          have hb2 : b ∈ (localScan bsGet mp nadb cancelAt rest
              { st with emitted := st.emitted ++ [hit],
                        effs := st.effs ++ [Eff.storeGet c],
                        pushes := st.pushes + 1 }).emitted := by
            simpa [localScan, hbc, hnb, hp] using hb
          refine ih _ ?_ b hb2
          intro b0 hb0
          have hb0' : b0 ∈ st.emitted ++ [hit] := hb0
          rcases List.mem_append.mp hb0' with h | h
          · exact hemit b0 h
          · have hb0eq : b0 = hit := by simpa using h
            subst hb0eq
            exact hn raw c b0 hnb
        · intro b hb
          have hb2 : b ∈ st.emitted := by
            simpa [localScan, hbc, hnb, hp] using hb
          exact hemit b hb2

lemma remoteLoop_emitted_inv (mp : Cid → Option Cid)
    (nadb : Nat → Option Cid → Except Err Block) (cancelAt : Option Nat)
    (Q : Cid → Prop) (l : List Block) (st : ScanSt)
    (hn : ∀ raw pc b, nadb raw (mp pc) = .ok b → Q b.cid)
    (hemit : ∀ b ∈ st.emitted, Q b.cid) :
    ∀ b ∈ (remoteLoop mp nadb cancelAt l st).emitted, Q b.cid := by
  induction l generalizing st with
  | nil => simpa [remoteLoop] using hemit
  | cons rb rest ih =>
    cases hnb : nadb rb.data (mp rb.cid) with
    | error e =>
      intro b hb
      have hb2 : b ∈ (remoteLoop mp nadb cancelAt rest st).emitted := by
        simpa [remoteLoop, hnb] using hb
      exact ih st hemit b hb2
    | ok b2 =>
      by_cases hp : pushOk cancelAt st.pushes = true
      · intro b hb
        have hb2 : b ∈ (remoteLoop mp nadb cancelAt rest
            { st with emitted := st.emitted ++ [b2], pushes := st.pushes + 1 }).emitted := by
          simpa [remoteLoop, hnb, hp] using hb
        refine ih _ ?_ b hb2
        intro b0 hb0
        have hb0' : b0 ∈ st.emitted ++ [b2] := hb0
        rcases List.mem_append.mp hb0' with h | h
        · exact hemit b0 h
        · have hb0eq : b0 = b2 := by simpa using h
          subst hb0eq
          exact hn rb.data rb.cid b0 hnb
      · intro b hb
        have hb2 : b ∈ st.emitted := by
          simpa [remoteLoop, hnb, hp] using hb
        exact hemit b hb2

lemma mkMapping_mem (ks : List Cid) (pc c : Cid) (h : mkMapping ks pc = some c) :
    c ∈ ks := by
  have := List.mem_of_find?_eq_some h
  exact List.mem_reverse.mp this

lemma remoteLoop_effs (mp : Cid → Option Cid)
    (nadb : Nat → Option Cid → Except Err Block) (cancelAt : Option Nat)
    (l : List Block) (st : ScanSt) :
    (remoteLoop mp nadb cancelAt l st).effs = st.effs := by
  induction l generalizing st with
  | nil => simp [remoteLoop]
  | cons rb rest ih =>
    cases hnb : nadb rb.data (mp rb.cid) with
    | error e => simp [remoteLoop, hnb, ih]
    | ok b2 =>
      by_cases hp : pushOk cancelAt st.pushes = true
      · simp [remoteLoop, hnb, hp, ih]
      · simp [remoteLoop, hnb, hp]

lemma announceLoop_first_fail (ex : Block → Option Err) (p : List Block) (d : Block)
    (rest : List Block) (e : Err) (hpre : ∀ b ∈ p, ex b = none) (hd : ex d = some e) :
    announceLoop ex (p ++ d :: rest) = ((p ++ [d]).map Eff.exchHasBlock, some e) := by
  induction p with
  | nil => simp [announceLoop, hd]
  | cons b bp ih =>
    have hb : ex b = none := hpre b (List.mem_cons_self b bp)
    have htail := ih (fun x hx => hpre x (List.mem_cons_of_mem b hx))
    simp [announceLoop, hb, htail]

lemma autoDecrypt_cid (raw : Nat) (oc : Option Cid) (b : Block)
    (h : autoDecrypt raw oc = .ok b) : oc = some b.cid := by
  cases oc with
  | none => simp [autoDecrypt] at h
  | some c =>
    cases hc : c.secret with
    | none =>
      simp [autoDecrypt, hc] at h
      subst h
      rfl
    | some k =>
      by_cases hk : k ≤ raw
      · simp [autoDecrypt, hc, hk] at h
        subst h
        rfl
      · simp [autoDecrypt, hc, hk] at h

/-! ### Concrete values used in witnesses and counterexamples -/

/-- A valid identifier (admissible hash function, long digest, no secret). -/
def cOK : Cid := ⟨7, 32, 1, none⟩

/-- A second valid identifier. -/
def cOK2 : Cid := ⟨7, 32, 3, none⟩

/-- An identifier whose hash function is on the insecure deny-list. -/
def cBad : Cid := ⟨1, 32, 2, none⟩

/-- A valid block carrying `cOK`. -/
def bOK : Block := ⟨cOK, 5, false⟩

/-- A valid block carrying `cOK2`. -/
def bOK2 : Block := ⟨cOK2, 6, false⟩

/-- An inadmissible block carrying `cBad`. -/
def bBad : Block := ⟨cBad, 3, false⟩

/-! ### The claims -/

/-- C4: for every batched write (`AddBlocks`), if any block in the batch fails
admissibility validation then the call returns the validation error, and —
validation happening before any store interaction — the effect trace is empty:
no block of the batch is persisted and no announcement is made. -/
theorem addBlocks_validation_failure_aborts_all (cf : Bool) (bs bs2 : List Block)
    (has : Cid → Except Err Bool) (putMany : List Block → Option Err)
    (exch : Option (Block → Option Err)) (e : Err)
    (hproj : traverseToPublic bs = .ok bs2)
    (hval : validateAll bs2 = .error e) :
    addBlocks cf bs has putMany exch = ⟨.ret (.error e), []⟩ := by
  simp [addBlocks, hproj, hval]

/-- Witness for C4: a two-block batch whose second block has an insecure hash
is rejected whole, with an empty collaborator trace. -/
theorem addBlocks_validation_failure_aborts_all_witness :
    addBlocks false [bOK, bBad] (fun _ => .ok false) (fun _ => none)
        (some (fun _ => none))
      = ⟨.ret (.error Err.insecureHash), []⟩ :=
  addBlocks_validation_failure_aborts_all false [bOK, bBad] [bOK, bBad]
    (fun _ => .ok false) (fun _ => none) (some (fun _ => none)) Err.insecureHash
    (by decide) (by decide)

/-- C5: for a valid block, `AddBlock` in check-first mode (`New`) returns
success touching only `Has` when the block is already present — no store write
and no announcement; in write-through mode (`NewWriteThrough`) the existence
check is skipped and the call always persists and always announces. -/
theorem addBlock_checkFirst_vs_writeThrough (o o2 : Block)
    (has : Cid → Except Err Bool) (put : Block → Option Err) (ex : Block → Option Err)
    (hop : o.toPublic = .ok o2) (hval : validateCid o2.cid = .ok ()) :
    (has o2.cid = .ok true →
      addBlock New.checkFirst o has put (some ex)
        = ⟨.ret (.ok ()), [Eff.storeHas o2.cid]⟩) ∧
    (put o2 = none →
      (addBlock NewWriteThrough.checkFirst o has put (some ex)).effs
        = [Eff.storePut o2, Eff.exchHasBlock o2]) := by
  constructor
  · intro hhas
    simp [addBlock, New, hop, hval, hhas]
  · intro hput
    cases hex : ex o2 with
    | none => simp [addBlock, NewWriteThrough, hop, hval, hput, hex]
    | some e => simp [addBlock, NewWriteThrough, hop, hval, hput, hex]

/-- Witness for C5: with `bOK` already present, check-first `AddBlock` only
checks `Has`; write-through `AddBlock` persists and announces even though the
store reports the block present. -/
theorem addBlock_checkFirst_vs_writeThrough_witness :
    addBlock New.checkFirst bOK (fun _ => .ok true) (fun _ => none)
        (some (fun _ => none))
      = ⟨.ret (.ok ()), [Eff.storeHas bOK.cid]⟩ ∧
    (addBlock NewWriteThrough.checkFirst bOK (fun _ => .ok true) (fun _ => none)
        (some (fun _ => none))).effs
      = [Eff.storePut bOK, Eff.exchHasBlock bOK] :=
  ⟨(addBlock_checkFirst_vs_writeThrough bOK bOK (fun _ => .ok true) (fun _ => none)
      (fun _ => none) (by decide) (by decide)).1 rfl,
   (addBlock_checkFirst_vs_writeThrough bOK bOK (fun _ => .ok true) (fun _ => none)
      (fun _ => none) (by decide) (by decide)).2 rfl⟩

/-- C6: for an identifier whose public form fails admissibility validation,
the single-key read returns the validation error with an empty trace, and
`AddBlock` on a block with such an identifier likewise returns the validation
error with an empty trace: neither the store nor the exchange is touched. -/
theorem invalid_identifier_rejected_untouched (c : Cid) (o o2 : Block)
    (bsGet : Cid → Except Err Nat) (f : Option (Cid → Except Err Nat))
    (nadb : Nat → Option Cid → Except Err Block)
    (has : Cid → Except Err Bool) (put : Block → Option Err)
    (exch : Option (Block → Option Err)) (cf : Bool) (e e2 : Err)
    (hvc : validateCid c.toPublic = .error e)
    (hop : o.toPublic = .ok o2)
    (hvo : validateCid o2.cid = .error e2) :
    getBlockRun c bsGet f nadb = (.error e, []) ∧
    addBlock cf o has put exch = ⟨.ret (.error e2), []⟩ := by
  constructor
  · simp [getBlockRun, hvc]
  · simp [addBlock, hop, hvo]

/-- Witness for C6: the insecure-hash identifier `cBad` is rejected by both
the read and the write path with empty traces. -/
theorem invalid_identifier_rejected_untouched_witness :
    getBlockRun cBad (fun _ => .ok 0) (some (fun _ => .ok 0)) autoDecrypt
      = (.error Err.insecureHash, []) ∧
    addBlock true bBad (fun _ => .ok false) (fun _ => none) (some (fun _ => none))
      = ⟨.ret (.error Err.insecureHash), []⟩ :=
  invalid_identifier_rejected_untouched cBad bBad bBad (fun _ => .ok 0)
    (some (fun _ => .ok 0)) autoDecrypt (fun _ => .ok false) (fun _ => none)
    (some (fun _ => none)) true Err.insecureHash Err.insecureHash
    (by decide) (by decide) (by decide)

/-- C7: when the local persist succeeds but the exchange announcement fails,
`AddBlock` returns the "blockservice is closed" error with the store-put
effect still in the trace (no rollback), and `AddBlocks` returns the
"blockservice is closed (...)" error with the bulk `PutMany` still in the
trace, the announcements stopping at the first failing block. -/
theorem announce_failure_error_no_rollback (o o2 : Block)
    (has : Cid → Except Err Bool) (put : Block → Option Err)
    (ex : Block → Option Err) (e : Err)
    (hop : o.toPublic = .ok o2) (hval : validateCid o2.cid = .ok ())
    (hput : put o2 = none) (hex : ex o2 = some e)
    (bs bs2 p rest : List Block) (d : Block)
    (putMany : List Block → Option Err) (ex2 : Block → Option Err) (e2 : Err)
    (hproj2 : traverseToPublic bs = .ok bs2)
    (hval2 : validateAll bs2 = .ok ())
    (hsplit : bs2 = p ++ d :: rest)
    (hpre : ∀ b ∈ p, ex2 b = none) (hd : ex2 d = some e2)
    (hpm : putMany bs2 = none) :
    addBlock NewWriteThrough.checkFirst o has put (some ex)
      = ⟨.ret (.error Err.closed), [Eff.storePut o2, Eff.exchHasBlock o2]⟩ ∧
    addBlocks NewWriteThrough.checkFirst bs has putMany (some ex2)
      = ⟨.ret (.error (Err.closedMsg e2)),
         [Eff.storePutMany bs2] ++ (p ++ [d]).map Eff.exchHasBlock⟩ := by
  constructor
  · simp [addBlock, NewWriteThrough, hop, hval, hput, hex]
  · subst hsplit
    simp [addBlocks, NewWriteThrough, hproj2, hval2, hpm,
          announceLoop_first_fail ex2 p d rest e2 hpre hd]

/-- Witness for C7: a failing announcement after a successful persist; in the
batch, the announcement for `bOK2` succeeds, the one for `bOK` fails and the
loop stops there. -/
theorem announce_failure_error_no_rollback_witness :
    addBlock NewWriteThrough.checkFirst bOK (fun _ => .ok false) (fun _ => none)
        (some (fun _ => some (Err.other 1)))
      = ⟨.ret (.error Err.closed), [Eff.storePut bOK, Eff.exchHasBlock bOK]⟩ ∧
    addBlocks NewWriteThrough.checkFirst [bOK2, bOK] (fun _ => .ok false)
        (fun _ => none) (some (fun b => if b = bOK then some (Err.other 1) else none))
      = ⟨.ret (.error (Err.closedMsg (Err.other 1))),
         [Eff.storePutMany [bOK2, bOK]]
           ++ ([bOK2] ++ [bOK]).map Eff.exchHasBlock⟩ :=
  announce_failure_error_no_rollback bOK bOK (fun _ => .ok false) (fun _ => none)
    (fun _ => some (Err.other 1)) (Err.other 1) (by decide) (by decide) rfl rfl
    [bOK2, bOK] [bOK2, bOK] [bOK2] [] bOK (fun _ => none)
    (fun b => if b = bOK then some (Err.other 1) else none) (Err.other 1)
    (by decide) (by decide) (by decide) (by decide) (by decide) rfl

/-- C8: a single-key read with no exchange configured, on a valid key the
local store reports not found, returns the typed `blockservice` not-found
error, the trace showing only the store lookup — no exchange contact and no
nil-exchange failure. -/
theorem getBlock_nil_exchange_notFound (c : Cid) (bsGet : Cid → Except Err Nat)
    (nadb : Nat → Option Cid → Except Err Block)
    (hval : validateCid c.toPublic = .ok ())
    (hmiss : bsGet c.toPublic = .error Err.storeNotFound) :
    getBlockRun c bsGet none nadb
      = (.error Err.svcNotFound, [Eff.storeGet c.toPublic]) := by
  simp [getBlockRun, hval, hmiss]

/-- Witness for C8: `cOK` absent locally with no exchange yields exactly
`Err.svcNotFound`. -/
theorem getBlock_nil_exchange_notFound_witness :
    getBlockRun cOK (fun _ => .error Err.storeNotFound) none autoDecrypt
      = (.error Err.svcNotFound, [Eff.storeGet cOK.toPublic]) :=
  getBlock_nil_exchange_notFound cOK (fun _ => .error Err.storeNotFound)
    autoDecrypt (by decide) rfl

/-- C10: a single-key read where the store's `Get` fails with an error other
than the exact `blockstore.ErrNotFound` sentinel returns that error as-is, and
— even with an exchange configured — the trace shows only the store lookup:
the exchange is never consulted. -/
theorem getBlock_other_store_error_propagates (c : Cid)
    (bsGet : Cid → Except Err Nat) (g : Cid → Except Err Nat)
    (nadb : Nat → Option Cid → Except Err Block) (e : Err)
    (hval : validateCid c.toPublic = .ok ())
    (herr : bsGet c.toPublic = .error e) (hne : e ≠ Err.storeNotFound) :
    getBlockRun c bsGet (some g) nadb = (.error e, [Eff.storeGet c.toPublic]) := by
  simp [getBlockRun, hval, herr, hne]

/-- Witness for C10: a store failure `Err.other 7` is propagated untouched and
the configured exchange is not contacted. -/
theorem getBlock_other_store_error_propagates_witness :
    getBlockRun cOK (fun _ => .error (Err.other 7)) (some (fun _ => .ok 0)) autoDecrypt
      = (.error (Err.other 7), [Eff.storeGet cOK.toPublic]) :=
  getBlock_other_store_error_propagates cOK (fun _ => .error (Err.other 7))
    (fun _ => .ok 0) autoDecrypt (Err.other 7) (by decide) rfl (by decide)

lemma getBlocksFinish_stopped (mp : Cid → Option Cid)
    (nadb : Nat → Option Cid → Except Err Block) (cancelAt : Option Nat)
    (f : Option (List Cid → Except Err (List Block))) (st : ScanSt)
    (hs : st.stopped = true) :
    getBlocksFinish mp nadb cancelAt f st = ⟨st.emitted, st.effs, false⟩ := by
  simp [getBlocksFinish, hs]

lemma getBlocksFinish_no_miss (mp : Cid → Option Cid)
    (nadb : Nat → Option Cid → Except Err Block) (cancelAt : Option Nat)
    (f : Option (List Cid → Except Err (List Block))) (st : ScanSt)
    (hm : st.misses = []) :
    getBlocksFinish mp nadb cancelAt f st = ⟨st.emitted, st.effs, false⟩ := by
  by_cases hs : st.stopped = true
  · simp [getBlocksFinish, hs]
  · simp [getBlocksFinish, hs, hm]

lemma getBlocksFinish_none_nilDeref (mp : Cid → Option Cid)
    (nadb : Nat → Option Cid → Except Err Block) (cancelAt : Option Nat)
    (st : ScanSt) (hs : st.stopped = false) (hm : st.misses ≠ []) :
    getBlocksFinish mp nadb cancelAt none st = ⟨st.emitted, st.effs, true⟩ := by
  cases hmm : st.misses with
  | nil => exact absurd hmm hm
  | cons a t => simp [getBlocksFinish, hs, hmm]

lemma getBlocksFinish_effs_some (mp : Cid → Option Cid)
    (nadb : Nat → Option Cid → Except Err Block) (cancelAt : Option Nat)
    (g : List Cid → Except Err (List Block)) (st : ScanSt)
    (hs : st.stopped = false) :
    (getBlocksFinish mp nadb cancelAt (some g) st).effs
      = st.effs ++ (if st.misses = [] then [] else [Eff.exchGetMany st.misses]) := by
  cases hmm : st.misses with
  | nil => simp [getBlocksFinish, hs, hmm]
  | cons a t =>
    cases hg : g (a :: t) with
    | error e => simp [getBlocksFinish, hs, hmm, hg]
    | ok rblocks => simp [getBlocksFinish, hs, hmm, hg, remoteLoop_effs]

lemma getBlocksFinish_emitted_inv (mp : Cid → Option Cid)
    (nadb : Nat → Option Cid → Except Err Block) (cancelAt : Option Nat)
    (f : Option (List Cid → Except Err (List Block))) (st : ScanSt)
    (Q : Cid → Prop)
    (hn : ∀ raw pc b, nadb raw (mp pc) = .ok b → Q b.cid)
    (hemit : ∀ b ∈ st.emitted, Q b.cid) :
    ∀ b ∈ (getBlocksFinish mp nadb cancelAt f st).emitted, Q b.cid := by
  intro b hb
  unfold getBlocksFinish at hb
  by_cases hs : st.stopped = true
  · rw [if_pos hs] at hb
    exact hemit b hb
  · rw [if_neg hs] at hb
    by_cases hm : st.misses.isEmpty = true
    · rw [if_pos hm] at hb
      exact hemit b hb
    · rw [if_neg hm] at hb
      split at hb
      · exact hemit b hb
      · split at hb
        · exact hemit b hb
        · rename_i rblocks heq
          exact remoteLoop_emitted_inv mp nadb cancelAt Q rblocks
            { st with effs := st.effs ++ [Eff.exchGetMany st.misses] } hn hemit b hb

/-- Counterexample for C1 as stated: the key `cBad`, whose public form fails
admissibility validation, is nevertheless used to query the local store and is
included in the miss list submitted to the exchange — the validation loop in
`getBlocks` only logs, it does not filter. -/
theorem getBlocks_invalid_key_not_excluded_counterexample :
    validateCid cBad.toPublic = .error Err.insecureHash ∧
    Eff.storeGet cBad.toPublic
      ∈ (getBlocksRun [cBad] (fun _ => .error Err.storeNotFound)
          (some (fun _ => .ok [])) autoDecrypt none).effs ∧
    Eff.exchGetMany [cBad.toPublic]
      ∈ (getBlocksRun [cBad] (fun _ => .error Err.storeNotFound)
          (some (fun _ => .ok [])) autoDecrypt none).effs := by
  decide

/-- C1 (amended): in the batched read, a key whose public form fails
admissibility validation is logged but NOT excluded: the request is processed
uniformly — every key, valid or not, is looked up in the local store in
order, and the miss list submitted to the exchange is exactly the keys whose
store lookup failed, invalid keys included.  (Stated for an uncancelled run
with an exchange configured: the trace is the per-key store lookups followed,
when any key misses, by one batched exchange fetch of precisely the miss
list.) -/
theorem getBlocks_invalid_keys_still_used (ks : List Cid)
    (bsGet : Cid → Except Err Nat) (g : List Cid → Except Err (List Block))
    (nadb : Nat → Option Cid → Except Err Block) :
    (getBlocksRun ks bsGet (some g) nadb none).effs
      = (ks.map Cid.toPublic).map Eff.storeGet
        ++ (if (ks.map Cid.toPublic).filter (fun c => !gotBlock (bsGet c)) = []
            then []
            else [Eff.exchGetMany
                   ((ks.map Cid.toPublic).filter (fun c => !gotBlock (bsGet c)))]) := by
  have hst := localScan_none_stopped bsGet (mkMapping ks) nadb
    (ks.map Cid.toPublic) ⟨[], [], [], 0, false⟩
  have hms := localScan_none_misses bsGet (mkMapping ks) nadb
    (ks.map Cid.toPublic) ⟨[], [], [], 0, false⟩
  have hef := localScan_none_effs bsGet (mkMapping ks) nadb
    (ks.map Cid.toPublic) ⟨[], [], [], 0, false⟩
  simp only [List.nil_append] at hms hef
  unfold getBlocksRun
  rw [getBlocksFinish_effs_some (mkMapping ks) nadb none g _ hst, hms, hef]

/-- Counterexample for C2 as stated: the exchange's batched-fetch stream is
allowed to contain duplicates, and `getBlocks` performs no deduplication, so
the output stream emits two blocks for the single requested key `cOK`. -/
theorem getBlocks_duplicate_emission_counterexample :
    (getBlocksRun [cOK] (fun _ => .error Err.storeNotFound)
        (some (fun _ => .ok [⟨cOK, 5, false⟩, ⟨cOK, 5, false⟩])) autoDecrypt none).emitted
      = [⟨cOK, 5, false⟩, ⟨cOK, 5, false⟩] ∧
    2 ≤ ((getBlocksRun [cOK] (fun _ => .error Err.storeNotFound)
        (some (fun _ => .ok [⟨cOK, 5, false⟩, ⟨cOK, 5, false⟩])) autoDecrypt none).emitted.filter
          (fun b => decide (b.cid = cOK))).length := by
  decide

/-- C2 (amended): every block emitted by the batched read carries a key of
the requested set `K` — the reverse mapping only resolves to requested
identifiers and the decrypted-block constructor returns the identifier it was
given (failing on the `nil` lookup result) — but at-most-once emission per
key does NOT hold: duplicates in the request or in the exchange stream are
forwarded without deduplication. -/
theorem getBlocks_emitted_keys_in_request (ks : List Cid)
    (bsGet : Cid → Except Err Nat)
    (f : Option (List Cid → Except Err (List Block)))
    (nadb : Nat → Option Cid → Except Err Block) (cancelAt : Option Nat)
    (hn : ∀ raw oc b, nadb raw oc = .ok b → oc = some b.cid) :
    ∀ b ∈ (getBlocksRun ks bsGet f nadb cancelAt).emitted, b.cid ∈ ks := by
  have hn' : ∀ raw pc b, nadb raw (mkMapping ks pc) = .ok b → b.cid ∈ ks := by
    intro raw pc b h
    exact mkMapping_mem ks pc b.cid (hn raw (mkMapping ks pc) b h)
  have hscan := localScan_emitted_inv bsGet (mkMapping ks) nadb cancelAt
    (fun c => c ∈ ks) (ks.map Cid.toPublic) ⟨[], [], [], 0, false⟩ hn'
    (by intro b hb; simp at hb)
  intro b hb
  unfold getBlocksRun at hb
  exact getBlocksFinish_emitted_inv (mkMapping ks) nadb cancelAt f _
    (fun c => c ∈ ks) hn' hscan b hb

/-- Witness for C2 (amended): a block fetched remotely for `cOK` is emitted
with its key in the requested set. -/
theorem getBlocks_emitted_keys_in_request_witness :
    (⟨cOK, 5, false⟩ : Block).cid ∈ [cOK] :=
  getBlocks_emitted_keys_in_request [cOK] (fun _ => .error Err.storeNotFound)
    (some (fun _ => .ok [⟨cOK, 5, false⟩])) autoDecrypt none
    autoDecrypt_cid ⟨cOK, 5, false⟩ (by decide)

/-- C3: with a nil exchange, a batched read whose key list contains a key
absent from the local store reaches the batched fetch on the nil fetcher with
no nil guard (`nilDeref = true`), whereas the single-key path checks for a nil
exchange and its trace never goes beyond the store lookup. -/
theorem getBlocks_nil_exchange_deref_reachable (ks : List Cid)
    (bsGet : Cid → Except Err Nat) (nadb : Nat → Option Cid → Except Err Block)
    (k : Cid) (hk : k ∈ ks)
    (hmiss : gotBlock (bsGet k.toPublic) = false) :
    (getBlocksRun ks bsGet none nadb none).nilDeref = true ∧
    ∀ c bsGet2 nadb2, ∀ e ∈ (getBlockRun c bsGet2 none nadb2).2,
      e = Eff.storeGet c.toPublic := by
  constructor
  · have hst := localScan_none_stopped bsGet (mkMapping ks) nadb
      (ks.map Cid.toPublic) ⟨[], [], [], 0, false⟩
    have hms := localScan_none_misses bsGet (mkMapping ks) nadb
      (ks.map Cid.toPublic) ⟨[], [], [], 0, false⟩
    simp only [List.nil_append] at hms
    have hmem : k.toPublic ∈ (ks.map Cid.toPublic).filter (fun c => !gotBlock (bsGet c)) :=
      List.mem_filter.mpr ⟨List.mem_map_of_mem Cid.toPublic hk, by simp [hmiss]⟩
    have hne : (localScan bsGet (mkMapping ks) nadb none
        (ks.map Cid.toPublic) ⟨[], [], [], 0, false⟩).misses ≠ [] := by
      rw [hms]
      exact List.ne_nil_of_mem hmem
    unfold getBlocksRun
    rw [getBlocksFinish_none_nilDeref (mkMapping ks) nadb none _ hst hne]
  · intro c bsGet2 nadb2 e he
    simp only [getBlockRun] at he
    cases hv : validateCid c.toPublic with
    | error e2 => simp [hv] at he
    | ok u =>
      cases hbs : bsGet2 c.toPublic with
      | ok raw =>
        rw [hv, hbs] at he
        simpa using he
      | error err =>
        by_cases herr : err = Err.storeNotFound
        · rw [hv, hbs] at he
          simp only [herr, if_true] at he
          simpa using he
        · rw [hv, hbs] at he
          simp only [if_neg herr] at he
          simpa using he

/-- Witness for C3: one absent key and a nil exchange make the goroutine call
the batched fetch on the nil fetcher. -/
theorem getBlocks_nil_exchange_deref_reachable_witness :
    (getBlocksRun [cOK] (fun _ => .error Err.storeNotFound) none autoDecrypt
      none).nilDeref = true :=
  (getBlocks_nil_exchange_deref_reachable [cOK] (fun _ => .error Err.storeNotFound)
    autoDecrypt cOK (by decide) rfl).1

/-- C9: if every requested key is found by the sequential local scan, the
batched read finishes without consulting the exchange at all: the run does
not dereference a nil fetcher and its whole trace consists of store lookups —
in particular it contains no batched exchange fetch. -/
theorem getBlocks_all_local_no_exchange (ks : List Cid)
    (bsGet : Cid → Except Err Nat)
    (f : Option (List Cid → Except Err (List Block)))
    (nadb : Nat → Option Cid → Except Err Block) (cancelAt : Option Nat)
    (hok : ∀ c ∈ ks, gotBlock (bsGet c.toPublic) = true) :
    (getBlocksRun ks bsGet f nadb cancelAt).nilDeref = false ∧
    ∀ e ∈ (getBlocksRun ks bsGet f nadb cancelAt).effs, ∃ c, e = Eff.storeGet c := by
  have hok2 : ∀ c ∈ ks.map Cid.toPublic, gotBlock (bsGet c) = true := by
    intro c hc
    rcases List.mem_map.mp hc with ⟨c0, hc0, rfl⟩
    exact hok c0 hc0
  have hms := localScan_ok_misses bsGet (mkMapping ks) nadb cancelAt
    (ks.map Cid.toPublic) ⟨[], [], [], 0, false⟩ hok2
  have heff := localScan_effs_storeGet bsGet (mkMapping ks) nadb cancelAt
    (ks.map Cid.toPublic) ⟨[], [], [], 0, false⟩
  unfold getBlocksRun
  rw [getBlocksFinish_no_miss (mkMapping ks) nadb cancelAt f _ hms]
  constructor
  · rfl
  · intro e he
    rcases heff e he with h | h
    · simp at h
    · exact h

/-- Witness for C9: one key, present locally, with an exchange configured:
the exchange's batched fetch is never invoked. -/
theorem getBlocks_all_local_no_exchange_witness :
    (getBlocksRun [cOK] (fun _ => .ok 5) (some (fun _ => .ok []))
      autoDecrypt none).nilDeref = false :=
  (getBlocks_all_local_no_exchange [cOK] (fun _ => .ok 5) (some (fun _ => .ok []))
    autoDecrypt none (by decide)).1
